import Mathlib

/-!
Shallow embedding of `hw_numpy.py` (class `SoundWaveFactory`).

Conventions:
* Floating-point sample values are modelled as exact rationals (`ℚ`) where the
  computation is arithmetic on stored data, and as reals (`ℝ`) where the
  computation involves `sin`/`π`.
* numpy arrays become Lean lists; a Python `*waves` varargs tuple becomes a
  `List` of waveforms.
* Operations that can raise a Python exception return `Except String α`;
  the error string records the Python exception class.
-/

/-! ### Class constants (`SoundWaveFactory`, lines 6-9) -/

def SAMPLING_RATE : ℕ := 44100

def DURATION_SECONDS : ℕ := 5

def SOUND_ARRAY_LEN : ℕ := SAMPLING_RATE * DURATION_SECONDS

def MAX_AMPLITUDE : ℕ := 2 ^ 13

/-! ### The note table (`SoundWaveFactory.NOTES`, lines 12-29)

Transcribed entry by entry from the Python dict literal, in source order;
the dict of the source has no duplicate keys, so the association list has
the same entries as the dict. -/

def NOTES : List (String × ℚ) := [
  ("0", 0), ("e0", 20.60172), ("f0", 21.82676), ("f#0", 23.12465), ("g0", 24.49971), ("g#0", 25.95654), ("a0", 27.50000), ("a#0", 29.13524),
  ("b0", 30.86771), ("c0", 32.70320), ("c#0", 34.64783), ("d0", 36.70810), ("d#0", 38.89087), ("e1", 41.20344), ("f1", 43.65353), ("f#1", 46.24930),
  ("g1", 48.99943), ("g#1", 51.91309), ("a1", 55.00000), ("a#1", 58.27047), ("b1", 61.73541), ("c1", 65.40639), ("c#1", 69.29566), ("d1", 73.41619),
  ("d#1", 77.78175), ("e2", 82.40689), ("f2", 87.30706), ("f#2", 92.49861), ("g2", 97.99886), ("g#2", 103.8262), ("a2", 110.0000), ("a#2", 116.5409),
  ("b2", 123.4708), ("c2", 130.8128), ("c#2", 138.5913), ("d2", 146.8324), ("d#2", 155.5635), ("e3", 164.8138), ("f3", 174.6141), ("f#3", 184.9972),
  ("g3", 195.9977), ("g#3", 207.6523), ("a3", 220.0000), ("a#3", 233.0819), ("b3", 246.9417), ("c3", 261.6256), ("c#3", 277.1826), ("d3", 293.6648),
  ("d#3", 311.1270), ("e4", 329.6276), ("f4", 349.2282), ("f#4", 369.9944), ("g4", 391.9954), ("g#4", 415.3047), ("a4", 440.0000), ("a#4", 466.1638),
  ("b4", 493.8833), ("c4", 523.2511), ("c#4", 554.3653), ("d4", 587.3295), ("d#4", 622.2540), ("e5", 659.2551), ("f5", 698.4565), ("f#5", 739.9888),
  ("g5", 783.9909), ("g#5", 830.6094), ("a5", 880.0000), ("a#5", 932.3275), ("b5", 987.7666), ("c5", 1046.502), ("c#5", 1108.731), ("d5", 1174.659),
  ("d#5", 1244.508), ("e6", 1318.510), ("f6", 1396.913), ("f#6", 1479.978), ("g6", 1567.982), ("g#6", 1661.219), ("a6", 1760.000), ("a#6", 1864.655),
  ("b6", 1975.533), ("c6", 2093.005), ("c#6", 2217.461), ("d6", 2349.318), ("d#6", 2489.016), ("e7", 2637.020), ("f7", 2793.826), ("f#7", 2959.955),
  ("g7", 3135.963), ("g#7", 3322.438), ("a7", 3520.000), ("a#7", 3729.310), ("b7", 3951.066), ("c7", 4186.009), ("c#7", 4434.922), ("d7", 4698.636),
  ("d#7", 4978.032) ]

/-- Python dict subscript `self.NOTES[note]` (line 37): the value at the key,
`KeyError` when the key is absent. -/
def lookupNote (note : String) : Except String ℚ :=
  match NOTES.find? (fun p => p.1 == note) with
  | some p => Except.ok p.2
  | none => Except.error ("KeyError: " ++ note)

/-! ### Reductions

Python `min(list)` (line 73) and `np.min`/`np.max` over the stacked trimmed
waves (lines 75-76): left fold of the binary min/max over a nonempty
sequence; raises `ValueError` on an empty one. -/

def pyListMin {α : Type} [Min α] : List α → Option α
  | [] => none
  | x :: xs => some (xs.foldl min x)

def pyListMax {α : Type} [Max α] : List α → Option α
  | [] => none
  | x :: xs => some (xs.foldl max x)

/-! ### `normalize_waves` (lines 72-77)

`min([len(wave) for wave in waves])` raises `ValueError` on an empty
argument tuple; `np.min(trimmed_waves)`/`np.max(trimmed_waves)` reduce over
all samples of all trimmed waves and raise `ValueError` when there are no
samples.  The final elementwise `(wave - min) / (max - min)` is a numpy
array division and never raises: when the global max equals the global min
it evaluates `0.0/0.0` elementwise, emits a `RuntimeWarning` and returns
NaN-filled arrays, so the call still returns normally.  The embedding keeps
total rational division there; the junk value that `ℚ` assigns to a zero
denominator stands in for those NaN payloads, and no theorem inspects the
sample values on that degenerate path. -/

def normalize_waves (waves : List (List ℚ)) : Except String (List (List ℚ)) :=
  match pyListMin (waves.map List.length) with
  | none => Except.error "ValueError: min() arg is an empty sequence"
  | some min_length_wave =>
    let trimmed_waves := waves.map (fun wave => wave.take min_length_wave)
    match pyListMin trimmed_waves.flatten, pyListMax trimmed_waves.flatten with
    | some min_amplitude, some max_amplitude =>
      Except.ok (trimmed_waves.map (fun wave =>
        wave.map (fun x => (x - min_amplitude) / (max_amplitude - min_amplitude))))
    | _, _ => Except.error "ValueError: zero-size array to reduction operation"

/-- The output that the specification describes for `normalize_waves` on
non-degenerate input: every wave truncated to the common minimum length `m`,
then each sample rescaled by the global extrema `mn < mx`.  Spec-side
definition, to be compared with the transcription `normalize_waves`. -/
def normalizeSpec (waves : List (List ℚ)) (m : ℕ) (mn mx : ℚ) : List (List ℚ) :=
  waves.map (fun wave => (wave.take m).map (fun x => (x - mn) / (mx - mn)))

/-! ### Sine synthesis (`get_normed_sin`, `get_soundwave`, lines 33-37)

The floating-point sine is modelled by the exact real `Real.sin`; a timeline
is a list of real time values. -/

noncomputable def get_normed_sin (timeline : List ℝ) (frequency : ℝ) : List ℝ :=
  timeline.map (fun t => (MAX_AMPLITUDE : ℝ) * Real.sin (2 * Real.pi * frequency * t))

noncomputable def get_soundwave (timeline : List ℝ) (note : String) : Except String (List ℝ) :=
  match lookupNote note with
  | Except.ok frequency => Except.ok (get_normed_sin timeline (frequency : ℝ))
  | Except.error e => Except.error e

/-- C-style float-to-integer conversion (truncation toward zero), the
behaviour of numpy `astype(np.int16)` for values inside the int16 range;
every value this development converts lies in [-8192, 8192] ⊆ int16, so
out-of-range conversion never occurs and is not modelled. -/
noncomputable def truncToInt (x : ℝ) : ℤ :=
  if 0 ≤ x then ⌊x⌋ else ⌈x⌉

/-- The quantized waveform computed by `create_note` (line 43):
`self.get_soundwave(timeline, note).astype(np.int16)`. -/
noncomputable def create_note_wave (timeline : List ℝ) (note : String) : Except String (List ℤ) :=
  match get_soundwave timeline note with
  | Except.ok sound_wave => Except.ok (sound_wave.map truncToInt)
  | Except.error e => Except.error e

/-- Python `str.replace` for a single-character pattern, as in
`.replace("#", "s")` (line 45): every occurrence of the character is
replaced. -/
def pyReplace (s : String) (old new : Char) : String :=
  String.mk (s.data.map (fun c => if c = old then new else c))

/-- The output filename chosen by `create_note` (lines 44-47). -/
def create_note_file_name (note : String) (name : Option String) : String :=
  match name with
  | none => pyReplace (note ++ "_sin.wav") '#' 's'
  | some n => n ++ ".wav"

/-- The default time axis (line 31):
`np.linspace(0, DURATION_SECONDS, num=SOUND_ARRAY_LEN)`, i.e. sample `i` is
`i * DURATION_SECONDS / (SOUND_ARRAY_LEN - 1)`, with `SOUND_ARRAY_LEN`
samples in all.  linspace arithmetic is exact here, so the axis is kept as
rationals. -/
def common_timeline : List ℚ :=
  (List.range SOUND_ARRAY_LEN).map
    (fun (i : ℕ) => (DURATION_SECONDS : ℚ) * (i : ℚ) / ((SOUND_ARRAY_LEN : ℚ) - 1))

/-! ### The text file store (`save_wave`, `read_wave_from_txt`, lines 51-52
and 79-83)

The current working directory is an association list from file name to the
stored sample sequence, most recent write first.  `np.savetxt` writes with
`%.18e`, which serializes IEEE doubles losslessly, and `np.loadtxt` parses
them back; at the exact-rational abstraction the stored content is the
sample sequence itself. -/

/-- numpy `astype(np.int16)` on an exact-rational sample (truncation toward
zero), used by the `"WAV"` branch of `save_wave` (line 81). -/
def truncQ (x : ℚ) : ℤ :=
  if 0 ≤ x then ⌊x⌋ else ⌈x⌉

def save_wave (fs : List (String × List ℚ)) (wave : List ℚ)
    (file_name file_type : String) : List (String × List ℚ) :=
  if file_type = "WAV" then
    (file_name ++ ".wav", wave.map (fun x => ((truncQ x : ℤ) : ℚ))) :: fs
  else
    (file_name ++ ".txt", wave) :: fs

def read_wave_from_txt (fs : List (String × List ℚ)) (file_path : String) :
    Except String (List ℚ) :=
  match fs.find? (fun p => p.1 == file_path) with
  | some p => Except.ok p.2
  | none => Except.error ("FileNotFoundError: " ++ file_path)

/-! ### Array-store embedding of `normalize_waves` (lines 72-77)

For the frame property the same source lines are transcribed over an
explicit array store: numpy arrays live in a store indexed by allocation
order, each numpy operation is a store transformer, and the function
receives its arguments as array indices.  `np.min`/`np.max` and `len` only
read; binary ufuncs (`wave - min_amplitude`, `... / (max - min)`) allocate
fresh output arrays; basic slicing `wave[:min_length]` creates a view, and
since no in-place operation occurs anywhere in the source the view is
modelled as a fresh array holding the sliced samples. -/

structure NpState where
  arrays : List (List ℚ)

def npAlloc (s : NpState) (v : List ℚ) : NpState × ℕ :=
  (⟨s.arrays ++ [v]⟩, s.arrays.length)

def npRead (s : NpState) (i : ℕ) : List ℚ :=
  s.arrays.getD i []

/-- One step of `[wave[:min_length_wave] for wave in waves]` (line 74): the
slice of the next argument array is materialized in the store and its index
is appended to the accumulated list. -/
def trimStep (min_length_wave : ℕ) (acc : NpState × List ℕ) (i : ℕ) :
    NpState × List ℕ :=
  let a := npAlloc acc.1 ((npRead acc.1 i).take min_length_wave)
  (a.1, acc.2 ++ [a.2])

/-- One step of the result comprehension (line 77): `wave - min_amplitude`
allocates a temporary array, then `... / (max_amplitude - min_amplitude)`
allocates the result array.  As in `normalize_waves`, the division is the
never-raising numpy array division: with a zero denominator the program
fills the fresh array with NaN (RuntimeWarning, no exception), for which
the junk value of rational division stands in. -/
def scaleStep (min_amplitude max_amplitude : ℚ) (acc : NpState × List ℕ) (i : ℕ) :
    NpState × List ℕ :=
  let a := npAlloc acc.1 ((npRead acc.1 i).map (fun x => x - min_amplitude))
  let b := npAlloc a.1 ((npRead a.1 a.2).map (fun x => x / (max_amplitude - min_amplitude)))
  (b.1, acc.2 ++ [b.2])

def normalize_waves_heap (s : NpState) (waves : List ℕ) :
    NpState × Except String (List ℕ) :=
  match pyListMin (waves.map (fun i => (npRead s i).length)) with
  | none => (s, Except.error "ValueError: min() arg is an empty sequence")
  | some min_length_wave =>
    let st := waves.foldl (trimStep min_length_wave) (s, [])
    let samples := (st.2.map (npRead st.1)).flatten
    match pyListMin samples, pyListMax samples with
    | some min_amplitude, some max_amplitude =>
      let res := st.2.foldl (scaleStep min_amplitude max_amplitude) (st.1, [])
      (res.1, Except.ok res.2)
    | _, _ => (st.1, Except.error "ValueError: zero-size array to reduction operation")

/-! ## Helper lemmas -/

theorem foldl_min_spec {α : Type} [LinearOrder α] (xs : List α) (a : α) :
    xs.foldl min a ∈ a :: xs ∧ xs.foldl min a ≤ a ∧ ∀ x ∈ xs, xs.foldl min a ≤ x := by
  induction xs generalizing a with
  | nil => simp
  | cons x xs ih =>
    simp only [List.foldl_cons]
    obtain ⟨hmem, hle, hall⟩ := ih (min a x)
    refine ⟨?_, hle.trans (min_le_left a x), ?_⟩
    · rcases List.mem_cons.1 hmem with h | h
      · rcases min_choice a x with h2 | h2
        · exact List.mem_cons.2 (Or.inl (h.trans h2))
        · exact List.mem_cons.2 (Or.inr (List.mem_cons.2 (Or.inl (h.trans h2))))
      · exact List.mem_cons.2 (Or.inr (List.mem_cons.2 (Or.inr h)))
    · intro y hy
      rcases List.mem_cons.1 hy with h | h
      · exact h ▸ hle.trans (min_le_right a x)
      · exact hall y h

theorem foldl_max_spec {α : Type} [LinearOrder α] (xs : List α) (a : α) :
    xs.foldl max a ∈ a :: xs ∧ a ≤ xs.foldl max a ∧ ∀ x ∈ xs, x ≤ xs.foldl max a := by
  induction xs generalizing a with
  | nil => simp
  | cons x xs ih =>
    simp only [List.foldl_cons]
    obtain ⟨hmem, hle, hall⟩ := ih (max a x)
    refine ⟨?_, (le_max_left a x).trans hle, ?_⟩
    · rcases List.mem_cons.1 hmem with h | h
      · rcases max_choice a x with h2 | h2
        · exact List.mem_cons.2 (Or.inl (h.trans h2))
        · exact List.mem_cons.2 (Or.inr (List.mem_cons.2 (Or.inl (h.trans h2))))
      · exact List.mem_cons.2 (Or.inr (List.mem_cons.2 (Or.inr h)))
    · intro y hy
      rcases List.mem_cons.1 hy with h | h
      · exact h ▸ (le_max_right a x).trans hle
      · exact hall y h

theorem pyListMin_spec {α : Type} [LinearOrder α] {l : List α} {mn : α}
    (h : pyListMin l = some mn) : mn ∈ l ∧ ∀ x ∈ l, mn ≤ x := by
  cases l with
  | nil => simp [pyListMin] at h
  | cons x xs =>
    simp only [pyListMin, Option.some.injEq] at h
    subst h
    obtain ⟨hmem, hle, hall⟩ := foldl_min_spec xs x
    refine ⟨hmem, ?_⟩
    intro y hy
    rcases List.mem_cons.1 hy with h | h
    · exact h ▸ hle
    · exact hall y h

theorem pyListMax_spec {α : Type} [LinearOrder α] {l : List α} {mx : α}
    (h : pyListMax l = some mx) : mx ∈ l ∧ ∀ x ∈ l, x ≤ mx := by
  cases l with
  | nil => simp [pyListMax] at h
  | cons x xs =>
    simp only [pyListMax, Option.some.injEq] at h
    subst h
    obtain ⟨hmem, hle, hall⟩ := foldl_max_spec xs x
    refine ⟨hmem, ?_⟩
    intro y hy
    rcases List.mem_cons.1 hy with h | h
    · exact h ▸ hle
    · exact hall y h

theorem normalize_waves_eq_ok (waves : List (List ℚ)) (m : ℕ) (mn mx : ℚ)
    (hm : pyListMin (waves.map List.length) = some m)
    (hmn : pyListMin (waves.map (fun wave => wave.take m)).flatten = some mn)
    (hmx : pyListMax (waves.map (fun wave => wave.take m)).flatten = some mx) :
    normalize_waves waves = Except.ok (normalizeSpec waves m mn mx) := by
  unfold normalize_waves
  rw [hm]
  simp only [hmn, hmx]
  unfold normalizeSpec
  rw [List.map_map]
  rfl

theorem normalizeSpec_sample_bounds (waves : List (List ℚ)) (m : ℕ) (mn mx : ℚ)
    (hmn : pyListMin (waves.map (fun wave => wave.take m)).flatten = some mn)
    (hmx : pyListMax (waves.map (fun wave => wave.take m)).flatten = some mx)
    (hlt : mn < mx) :
    ∀ y ∈ (normalizeSpec waves m mn mx).flatten, 0 ≤ y ∧ y ≤ 1 := by
  intro y hy
  obtain ⟨w, hw, hyw⟩ := List.mem_flatten.1 hy
  obtain ⟨wave, hwave, rfl⟩ := List.mem_map.1 hw
  obtain ⟨x, hx, rfl⟩ := List.mem_map.1 hyw
  have hxmem : x ∈ (waves.map (fun wave => wave.take m)).flatten :=
    List.mem_flatten.2 ⟨wave.take m, List.mem_map_of_mem _ hwave, hx⟩
  have hxmn : mn ≤ x := (pyListMin_spec hmn).2 x hxmem
  have hxmx : x ≤ mx := (pyListMax_spec hmx).2 x hxmem
  have hd : (0 : ℚ) < mx - mn := sub_pos.2 hlt
  constructor
  · exact div_nonneg (sub_nonneg.2 hxmn) hd.le
  · exact (div_le_one hd).2 (sub_le_sub_right hxmx mn)

/-- C1: a call to `normalize_waves` on at least one waveform, when the global
maximum over the truncated samples strictly exceeds the global minimum,
returns one waveform per input, each equal to the input truncated to the
minimum input length with every sample `x` mapped to
`(x - mn) / (mx - mn)`; every output sample lies in `[0, 1]`, and the
globally minimal and maximal samples map to `0` and `1`, which are both
attained in the output. -/
theorem C1_normalize_waves_correct (waves : List (List ℚ)) (m : ℕ) (mn mx : ℚ)
    (hm : pyListMin (waves.map List.length) = some m)
    (hmn : pyListMin (waves.map (fun wave => wave.take m)).flatten = some mn)
    (hmx : pyListMax (waves.map (fun wave => wave.take m)).flatten = some mx)
    (hlt : mn < mx) :
    normalize_waves waves = Except.ok (normalizeSpec waves m mn mx)
    ∧ (normalizeSpec waves m mn mx).length = waves.length
    ∧ (∀ w ∈ normalizeSpec waves m mn mx, w.length = m)
    ∧ (∀ y ∈ (normalizeSpec waves m mn mx).flatten, 0 ≤ y ∧ y ≤ 1)
    ∧ (0 : ℚ) ∈ (normalizeSpec waves m mn mx).flatten
    ∧ (1 : ℚ) ∈ (normalizeSpec waves m mn mx).flatten := by
  have hd : (0 : ℚ) < mx - mn := sub_pos.2 hlt
  refine ⟨normalize_waves_eq_ok waves m mn mx hm hmn hmx, ?_,
    ?_, normalizeSpec_sample_bounds waves m mn mx hmn hmx hlt, ?_, ?_⟩
  · exact List.length_map waves _
  · intro w hw
    obtain ⟨wave, hwave, rfl⟩ := List.mem_map.1 hw
    rw [List.length_map, List.length_take]
    exact min_eq_left ((pyListMin_spec hm).2 _ (List.mem_map_of_mem List.length hwave))
  · obtain ⟨w, hw, hmnw⟩ := List.mem_flatten.1 (pyListMin_spec hmn).1
    obtain ⟨wave, hwave, rfl⟩ := List.mem_map.1 hw
    refine List.mem_flatten.2 ⟨(wave.take m).map (fun x => (x - mn) / (mx - mn)),
      List.mem_map_of_mem _ hwave, ?_⟩
    have h0 : (mn - mn) / (mx - mn) = 0 := by rw [sub_self, zero_div]
    exact h0 ▸ List.mem_map_of_mem _ hmnw
  · obtain ⟨w, hw, hmxw⟩ := List.mem_flatten.1 (pyListMax_spec hmx).1
    obtain ⟨wave, hwave, rfl⟩ := List.mem_map.1 hw
    refine List.mem_flatten.2 ⟨(wave.take m).map (fun x => (x - mn) / (mx - mn)),
      List.mem_map_of_mem _ hwave, ?_⟩
    have h1 : (mx - mn) / (mx - mn) = 1 := div_self hd.ne'
    exact h1 ▸ List.mem_map_of_mem _ hmxw

theorem C1_witness :
    normalize_waves [[0, 2], [1]] = Except.ok (normalizeSpec [[0, 2], [1]] 1 0 1)
    ∧ (normalizeSpec [[0, 2], [1]] 1 0 1).length = ([[0, 2], [1]] : List (List ℚ)).length
    ∧ (∀ w ∈ normalizeSpec [[0, 2], [1]] 1 0 1, w.length = 1)
    ∧ (∀ y ∈ (normalizeSpec [[0, 2], [1]] 1 0 1).flatten, 0 ≤ y ∧ y ≤ 1)
    ∧ (0 : ℚ) ∈ (normalizeSpec [[0, 2], [1]] 1 0 1).flatten
    ∧ (1 : ℚ) ∈ (normalizeSpec [[0, 2], [1]] 1 0 1).flatten :=
  C1_normalize_waves_correct [[0, 2], [1]] 1 0 1
    (by decide)
    (by norm_num [pyListMin, min_def])
    (by norm_num [pyListMax, max_def])
    (by norm_num)

/-- C2: on a degenerate input whose global maximum equals its global minimum
after truncation (all samples equal), `normalize_waves` does not fail: the
unguarded numpy array division evaluates `0.0/0.0` elementwise, emits only a
`RuntimeWarning` and fills the result with NaN, and the call returns
normally — no division-by-zero error is raised or propagated, contrary to
the claim and to the specification's stated intent. -/
theorem C2_degenerate_returns_normally :
    ∃ result, normalize_waves [[1], [1]] = Except.ok result :=
  ⟨normalizeSpec [[1], [1]] 1 1 1,
    normalize_waves_eq_ok [[1], [1]] 1 1 1
      (by decide)
      (by norm_num [pyListMin, min_def])
      (by norm_num [pyListMax, max_def])⟩

/-- C9: calling `normalize_waves` with zero waveform arguments fails with the
error of taking the minimum of an empty length list, rather than returning
an empty result list. -/
theorem C9_normalize_waves_no_args :
    normalize_waves [] = Except.error "ValueError: min() arg is an empty sequence" := rfl

/-- C3 counterexample: the note table does not contain exactly 88 note
entries besides the silence entry; the claimed count is wrong. -/
theorem C3_counterexample :
    ¬ (NOTES.filter (fun p => p.1 != "0")).length = 88 := by decide

/-- C3 (amended): the note table contains exactly 96 note entries plus the
single zero-frequency silence entry `"0"`, and every non-silence entry maps
to a strictly positive frequency.  The table is a fixed constant: no
operation of the embedding (nor of the source) writes to it. -/
theorem C3_note_table_amended :
    (NOTES.filter (fun p => p.1 != "0")).length = 96
    ∧ NOTES.filter (fun p => p.1 == "0") = [("0", 0)]
    ∧ ∀ p ∈ NOTES, p.1 ≠ "0" → 0 < p.2 := by
  refine ⟨by decide, by decide, ?_⟩
  intro p hp h
  fin_cases hp <;> first | exact absurd rfl h | norm_num

theorem C3_witness : 0 < (20.60172 : ℚ) :=
  C3_note_table_amended.2.2 ("e0", 20.60172)
    (List.mem_cons.2 (Or.inr (List.mem_cons.2 (Or.inl rfl)))) (by decide)

/-- C5: saving a waveform with any `file_type` other than `"WAV"` writes the
samples to `"<file_name>.txt"`, and reading that file back returns exactly
the saved sample sequence. -/
theorem C5_txt_round_trip (fs : List (String × List ℚ)) (wave : List ℚ)
    (file_name file_type : String) (h : file_type ≠ "WAV") :
    save_wave fs wave file_name file_type = (file_name ++ ".txt", wave) :: fs
    ∧ read_wave_from_txt (save_wave fs wave file_name file_type) (file_name ++ ".txt")
        = Except.ok wave := by
  have hs : save_wave fs wave file_name file_type = (file_name ++ ".txt", wave) :: fs := by
    rw [save_wave, if_neg h]
  refine ⟨hs, ?_⟩
  rw [hs]
  simp only [read_wave_from_txt]
  rw [List.find?_cons_of_pos _ (by simp)]

theorem C5_witness :
    save_wave [] [1] "a" "txt" = ("a" ++ ".txt", [1]) :: []
    ∧ read_wave_from_txt (save_wave [] [1] "a" "txt") ("a" ++ ".txt") = Except.ok [1] :=
  C5_txt_round_trip [] [1] "a" "txt" (by decide)

/-- C6: `create_note` names its output `"<name>.wav"` when a name is given,
and otherwise `"<note>_sin.wav"` with every `#` replaced by `s`; in
particular note `"a#4"` yields the file `"as4_sin.wav"`. -/
theorem C6_create_note_file_name_correct :
    (∀ note name, create_note_file_name note (some name) = name ++ ".wav")
    ∧ (∀ note, create_note_file_name note none = pyReplace note '#' 's' ++ "_sin.wav")
    ∧ create_note_file_name "a#4" none = "as4_sin.wav" := by
  refine ⟨fun note name => rfl, ?_, by decide⟩
  intro note
  show pyReplace (note ++ "_sin.wav") '#' 's' = pyReplace note '#' 's' ++ "_sin.wav"
  apply String.ext
  simp only [pyReplace, String.data_append, List.map_append]
  congr 1

/-- C7: for every note identifier absent from the note table, synthesis via
`get_soundwave` — and hence `create_note`'s waveform computation — fails with
the lookup error and produces no waveform; for every note identifier present
in the table, the lookup succeeds and synthesis yields a waveform. -/
theorem C7_note_lookup (timeline : List ℝ) (note : String) :
    (note ∉ NOTES.map Prod.fst →
      get_soundwave timeline note = Except.error ("KeyError: " ++ note)
      ∧ create_note_wave timeline note = Except.error ("KeyError: " ++ note))
    ∧ (note ∈ NOTES.map Prod.fst →
      ∃ f, lookupNote note = Except.ok f
        ∧ get_soundwave timeline note = Except.ok (get_normed_sin timeline (f : ℝ))) := by
  constructor
  · intro habs
    have hfind : NOTES.find? (fun p => p.1 == note) = none := by
      rw [List.find?_eq_none]
      intro p hp hbeq
      exact habs (List.mem_map.2 ⟨p, hp, by simpa using hbeq⟩)
    have hlook : lookupNote note = Except.error ("KeyError: " ++ note) := by
      rw [lookupNote, hfind]
    constructor
    · rw [get_soundwave, hlook]
    · rw [create_note_wave, get_soundwave, hlook]
  · intro hnote
    have hsome : ∃ p, NOTES.find? (fun p => p.1 == note) = some p := by
      rw [← Option.isSome_iff_exists, List.find?_isSome]
      obtain ⟨q, hq, hq2⟩ := List.mem_map.1 hnote
      exact ⟨q, hq, by simp [hq2]⟩
    obtain ⟨p, hp⟩ := hsome
    refine ⟨p.2, ?_, ?_⟩
    · rw [lookupNote, hp]
    · rw [get_soundwave, lookupNote, hp]

theorem C7_witness :
    (get_soundwave [] "z9" = Except.error ("KeyError: " ++ "z9")
      ∧ create_note_wave [] "z9" = Except.error ("KeyError: " ++ "z9"))
    ∧ ∃ f, lookupNote "a4" = Except.ok f
        ∧ get_soundwave [] "a4" = Except.ok (get_normed_sin [] (f : ℝ)) :=
  ⟨(C7_note_lookup [] "z9").1 (by decide), (C7_note_lookup [] "a4").2 (by decide)⟩

theorem get_normed_sin_bounds (timeline : List ℝ) (frequency : ℝ) :
    ∀ y ∈ get_normed_sin timeline frequency, -8192 ≤ y ∧ y ≤ 8192 := by
  intro y hy
  obtain ⟨t, ht, rfl⟩ := List.mem_map.1 hy
  have hA : ((MAX_AMPLITUDE : ℕ) : ℝ) = 8192 := by norm_num [MAX_AMPLITUDE]
  have h1 := Real.neg_one_le_sin (2 * Real.pi * frequency * t)
  have h2 := Real.sin_le_one (2 * Real.pi * frequency * t)
  rw [hA]
  constructor <;> nlinarith

theorem truncToInt_bounds {x : ℝ} (h1 : -8192 ≤ x) (h2 : x ≤ 8192) :
    -8192 ≤ truncToInt x ∧ truncToInt x ≤ 8192 := by
  rw [truncToInt]
  split
  · constructor
    · have : (0 : ℤ) ≤ ⌊x⌋ := Int.floor_nonneg.2 (by assumption)
      omega
    · have : ⌊x⌋ ≤ ⌊(8192 : ℝ)⌋ := Int.floor_le_floor h2
      have h8 : ⌊(8192 : ℝ)⌋ = 8192 := by
        rw [show ((8192 : ℝ)) = ((8192 : ℤ) : ℝ) by norm_num, Int.floor_intCast]
      omega
  · constructor
    · have : ⌈(-8192 : ℝ)⌉ ≤ ⌈x⌉ := Int.ceil_le_ceil h1
      have h8 : ⌈(-8192 : ℝ)⌉ = -8192 := by
        rw [show ((-8192 : ℝ)) = ((-8192 : ℤ) : ℝ) by norm_num, Int.ceil_intCast]
      omega
    · have hx0 : x ≤ 0 := le_of_not_le (by assumption)
      have : ⌈x⌉ ≤ 0 := Int.ceil_le.2 (by exact_mod_cast hx0)
      omega

/-- C4 counterexample: on the valid note `"a4"` with the valid timeline
`[1/1760]` the sine argument is exactly `π/2`, the synthesized sample is
exactly `8192`, and the quantized sample is `8192`, which is outside the
claimed interval `[-8192, 8191]`. -/
theorem C4_counterexample :
    create_note_wave [(1 : ℝ) / 1760] "a4" = Except.ok [(8192 : ℤ)]
    ∧ ¬ ((8192 : ℤ) ≤ 8191) := by
  refine ⟨?_, by decide⟩
  have hbase : create_note_wave [(1 : ℝ) / 1760] "a4"
      = Except.ok [truncToInt ((MAX_AMPLITUDE : ℝ) *
          Real.sin (2 * Real.pi * ((440.0000 : ℚ) : ℝ) * ((1 : ℝ) / 1760)))] := rfl
  rw [hbase]
  have hval : ((440.0000 : ℚ) : ℝ) = 440 := by norm_num
  have harg : 2 * Real.pi * ((440.0000 : ℚ) : ℝ) * ((1 : ℝ) / 1760) = Real.pi / 2 := by
    rw [hval]; ring
  have helem : (MAX_AMPLITUDE : ℝ) *
      Real.sin (2 * Real.pi * ((440.0000 : ℚ) : ℝ) * ((1 : ℝ) / 1760)) = 8192 := by
    rw [harg, Real.sin_pi_div_two, mul_one]; norm_num [MAX_AMPLITUDE]
  rw [helem]
  have htr : truncToInt (8192 : ℝ) = 8192 := by
    rw [truncToInt, if_pos (by norm_num)]
    rw [show ((8192 : ℝ)) = ((8192 : ℤ) : ℝ) by norm_num, Int.floor_intCast]
  rw [htr]

/-- C4 (amended): for every note and timeline on which `create_note`
succeeds, every sample of its quantized 16-bit integer waveform lies within
`[-8192, 8192]` (the value `8192` is attainable exactly when the sine
reaches `1`, so the claimed upper end `8191` had to be widened). -/
theorem C4_quantized_bounds (timeline : List ℝ) (note : String) (w : List ℤ)
    (h : create_note_wave timeline note = Except.ok w) :
    ∀ y ∈ w, -8192 ≤ y ∧ y ≤ 8192 := by
  cases hlk : lookupNote note with
  | error e =>
    simp only [create_note_wave, get_soundwave, hlk] at h
    exact absurd h (by simp)
  | ok f =>
    simp only [create_note_wave, get_soundwave, hlk, Except.ok.injEq] at h
    subst h
    intro y hy
    obtain ⟨x, hx, rfl⟩ := List.mem_map.1 hy
    obtain ⟨hb1, hb2⟩ := get_normed_sin_bounds timeline (f : ℝ) x hx
    exact truncToInt_bounds hb1 hb2

theorem C4_witness :
    -8192 ≤ truncToInt ((MAX_AMPLITUDE : ℝ) * Real.sin (2 * Real.pi * ((0 : ℚ) : ℝ) * (0 : ℝ)))
    ∧ truncToInt ((MAX_AMPLITUDE : ℝ) * Real.sin (2 * Real.pi * ((0 : ℚ) : ℝ) * (0 : ℝ))) ≤ 8192 :=
  C4_quantized_bounds [(0 : ℝ)] "0"
    [truncToInt ((MAX_AMPLITUDE : ℝ) * Real.sin (2 * Real.pi * ((0 : ℚ) : ℝ) * (0 : ℝ)))] rfl
    (truncToInt ((MAX_AMPLITUDE : ℝ) * Real.sin (2 * Real.pi * ((0 : ℚ) : ℝ) * (0 : ℝ))))
    (List.mem_singleton.2 rfl)

/-- C8: the default timeline has `44100 × 5 = 220500` samples; synthesis on
any timeline for any note present in the table yields a float waveform of
the same length as that timeline, with every sample within `[-8192, 8192]`;
and the quantized waveform produced by `create_note` likewise has the same
length as the timeline it was generated from. -/
theorem C8_soundwave_length_bounds :
    common_timeline.length = SOUND_ARRAY_LEN
    ∧ SOUND_ARRAY_LEN = 220500
    ∧ (∀ (timeline : List ℝ) (note : String) (f : ℚ),
        lookupNote note = Except.ok f →
          get_soundwave timeline note = Except.ok (get_normed_sin timeline (f : ℝ))
          ∧ (get_normed_sin timeline (f : ℝ)).length = timeline.length
          ∧ ∀ y ∈ get_normed_sin timeline (f : ℝ), -8192 ≤ y ∧ y ≤ 8192)
    ∧ ∀ (timeline : List ℝ) (note : String) (w : List ℤ),
        create_note_wave timeline note = Except.ok w → w.length = timeline.length := by
  refine ⟨?_, by decide, ?_, ?_⟩
  · simp [common_timeline]
  · intro timeline note f hf
    exact ⟨by rw [get_soundwave, hf], List.length_map timeline _,
      get_normed_sin_bounds timeline _⟩
  · intro timeline note w h
    cases hlk : lookupNote note with
    | error e =>
      simp only [create_note_wave, get_soundwave, hlk] at h
      exact absurd h (by simp)
    | ok f =>
      simp only [create_note_wave, get_soundwave, hlk, Except.ok.injEq] at h
      subst h
      rw [List.length_map, get_normed_sin, List.length_map]

theorem C8_witness :
    (get_soundwave [(0 : ℝ)] "0" = Except.ok (get_normed_sin [(0 : ℝ)] ((0 : ℚ) : ℝ))
    ∧ (get_normed_sin [(0 : ℝ)] ((0 : ℚ) : ℝ)).length = [(0 : ℝ)].length
    ∧ ∀ y ∈ get_normed_sin [(0 : ℝ)] ((0 : ℚ) : ℝ), -8192 ≤ y ∧ y ≤ 8192)
    ∧ [truncToInt ((MAX_AMPLITUDE : ℝ) * Real.sin (2 * Real.pi * ((0 : ℚ) : ℝ) * (0 : ℝ)))].length
        = [(0 : ℝ)].length :=
  ⟨C8_soundwave_length_bounds.2.2.1 [(0 : ℝ)] "0" 0 rfl,
   C8_soundwave_length_bounds.2.2.2 [(0 : ℝ)] "0"
     [truncToInt ((MAX_AMPLITUDE : ℝ) * Real.sin (2 * Real.pi * ((0 : ℚ) : ℝ) * (0 : ℝ)))] rfl⟩

theorem npAlloc_arrays (s : NpState) (v : List ℚ) :
    ((npAlloc s v).1).arrays = s.arrays ++ [v] := rfl

theorem foldl_extend_arrays (step : NpState × List ℕ → ℕ → NpState × List ℕ)
    (hstep : ∀ acc i, ∃ ext, ((step acc i).1).arrays = acc.1.arrays ++ ext) :
    ∀ (l : List ℕ) (acc : NpState × List ℕ),
      ∃ ext, ((l.foldl step acc).1).arrays = acc.1.arrays ++ ext := by
  intro l
  induction l with
  | nil => exact fun acc => ⟨[], (List.append_nil _).symm⟩
  | cons x xs ih =>
    intro acc
    obtain ⟨e1, h1⟩ := hstep acc x
    obtain ⟨e2, h2⟩ := ih (step acc x)
    exact ⟨e1 ++ e2, by rw [List.foldl_cons, h2, h1, List.append_assoc]⟩

theorem trimStep_extends (m : ℕ) (acc : NpState × List ℕ) (i : ℕ) :
    ∃ ext, ((trimStep m acc i).1).arrays = acc.1.arrays ++ ext :=
  ⟨[(npRead acc.1 i).take m], rfl⟩

theorem scaleStep_extends (mn mx : ℚ) (acc : NpState × List ℕ) (i : ℕ) :
    ∃ ext, ((scaleStep mn mx acc i).1).arrays = acc.1.arrays ++ ext := by
  simp only [scaleStep, npAlloc_arrays]
  exact ⟨_, List.append_assoc _ _ _⟩

/-- C10: `normalize_waves` never modifies its argument arrays: in the
array-store embedding, every store cell that existed before the call holds
exactly the same samples afterwards — every operation of the source either
reads or allocates a fresh array, so the store only grows. -/
theorem C10_normalize_waves_frame (s : NpState) (waves : List ℕ) (i : ℕ)
    (hi : i < s.arrays.length) :
    npRead ((normalize_waves_heap s waves).1) i = npRead s i := by
  suffices hext : ∃ ext, ((normalize_waves_heap s waves).1).arrays = s.arrays ++ ext by
    obtain ⟨ext, hext⟩ := hext
    rw [npRead, npRead, hext, List.getD_append _ _ _ _ hi]
  unfold normalize_waves_heap
  split
  · exact ⟨[], (List.append_nil _).symm⟩
  · rename_i m hm
    obtain ⟨e1, h1⟩ := foldl_extend_arrays (trimStep m) (trimStep_extends m) waves (s, [])
    dsimp only
    split
    · rename_i mn mx hmn2 hmx2
      obtain ⟨e2, h2⟩ := foldl_extend_arrays (scaleStep mn mx) (scaleStep_extends mn mx)
        (waves.foldl (trimStep m) (s, [])).2 ((waves.foldl (trimStep m) (s, [])).1, [])
      refine ⟨e1 ++ e2, ?_⟩
      rw [h2]
      dsimp only
      rw [h1, List.append_assoc]
    · exact ⟨e1, h1⟩

theorem C10_witness :
    npRead ((normalize_waves_heap ⟨[[1, 2], [3]]⟩ [0, 1]).1) 0 = npRead ⟨[[1, 2], [3]]⟩ 0 :=
  C10_normalize_waves_frame ⟨[[1, 2], [3]]⟩ [0, 1] 0 (by decide)
